import Mathlib

/-
Shallow embedding of the client-side state store and derived-view
computations of the ppp project-status dashboard (TypeScript sources:
ui/src/stores/projectStore.ts, ui/src/types/index.ts,
ui/src/utils/dateUtils.ts, and the Reports / PresentationMode pages).

Modelling conventions:
- JS strings are modelled as `List Char` (`Str`), so that split / join /
  trim behaviour can be reasoned about structurally.
- ISO date strings (YYYY-MM-DD) are modelled as integer day numbers
  (days since 1970-01-01); lexicographic order on ISO strings agrees
  with integer order on day numbers, and JS Date day arithmetic
  (getDate/setDate with rollover) is plain integer arithmetic on day
  numbers.  Day number 0 (1970-01-01) was a Thursday, so JS getDay
  (0 = Sunday .. 6 = Saturday) is `(d + 4).emod 7`.
- ISO timestamps (createdAt/updatedAt, produced by new Date().toISOString())
  are also modelled as Int; only their equality/order matters here.
- Nondeterministic inputs of the code (generateId(), new Date()) are
  passed to the operations as explicit parameters (newId, now).
- `Partial<T>` objects are structures of Option fields: `none` means the
  key is absent from the object spread.
-/

namespace PPP

abbrev Str := List Char

/-- ProjectStatus from ui/src/types/index.ts. -/
inductive Status
  | on_track
  | at_risk
  | delayed
  | completed
  | on_hold
deriving DecidableEq

/-- ProjectCategory from ui/src/types/index.ts. -/
inductive Category
  | project
  | index
  | idea
deriving DecidableEq

/-- The union type string | string[] used by accomplishments/challenges. -/
inductive StrOrList
  | str (s : Str)
  | arr (l : List Str)
deriving DecidableEq

/-- WeeklyUpdate from ui/src/types/index.ts (current variant, with
nextSteps and list-or-text accomplishments/challenges). -/
structure WeeklyUpdate where
  id : Str
  weekDate : Int
  accomplishments : StrOrList
  nextSteps : Option (List Str)
  progress : Int
  estimatedCompletion : Int
  challenges : StrOrList
  supportNeeded : Str
  notes : Str
  createdAt : Int
deriving DecidableEq

/-- Project from ui/src/types/index.ts.  The optional presentation
fields (isActiveInPresentation, displayOrder) are not touched by any of
the operations studied here and are omitted. -/
structure Project where
  id : Str
  name : Str
  description : Str
  status : Status
  category : Category
  startDate : Int
  targetEndDate : Int
  currentProgress : Int
  owner : Str
  weeklyUpdates : List WeeklyUpdate
  createdAt : Int
  updatedAt : Int
deriving DecidableEq

/-- Omit of WeeklyUpdate without id and createdAt: the updateData
argument of addWeeklyUpdate. -/
structure UpdateData where
  weekDate : Int
  accomplishments : StrOrList
  nextSteps : Option (List Str)
  progress : Int
  estimatedCompletion : Int
  challenges : StrOrList
  supportNeeded : Str
  notes : Str
deriving DecidableEq

/-- The changes object of updateWeeklyUpdate: a JS object spread over an
existing update; `none` models an absent key. -/
structure UpdatePatch where
  id : Option Str
  weekDate : Option Int
  accomplishments : Option StrOrList
  nextSteps : Option (Option (List Str))
  progress : Option Int
  estimatedCompletion : Option Int
  challenges : Option StrOrList
  supportNeeded : Option Str
  notes : Option Str
  createdAt : Option Int
deriving DecidableEq

/-- The updates object of updateProject.  updatedAt is omitted: in
`{ ...p, ...updates, updatedAt: now }` a supplied updatedAt key is
always overwritten by now. -/
structure ProjectPatch where
  id : Option Str
  name : Option Str
  description : Option Str
  status : Option Status
  category : Option Category
  startDate : Option Int
  targetEndDate : Option Int
  currentProgress : Option Int
  owner : Option Str
  weeklyUpdates : Option (List WeeklyUpdate)
  createdAt : Option Int
deriving DecidableEq

/-- JS object spread `{ ...p, ...updates, updatedAt: now }` in
updateProject (projectStore.ts line 245). -/
def applyProjectPatch (p : Project) (c : ProjectPatch) (now : Int) : Project :=
  { id := c.id.getD p.id
    name := c.name.getD p.name
    description := c.description.getD p.description
    status := c.status.getD p.status
    category := c.category.getD p.category
    startDate := c.startDate.getD p.startDate
    targetEndDate := c.targetEndDate.getD p.targetEndDate
    currentProgress := c.currentProgress.getD p.currentProgress
    owner := c.owner.getD p.owner
    weeklyUpdates := c.weeklyUpdates.getD p.weeklyUpdates
    createdAt := c.createdAt.getD p.createdAt
    updatedAt := now }

/-- JS object spread `{ ...u, ...changes }` in updateWeeklyUpdate
(projectStore.ts line 283). -/
def applyUpdatePatch (u : WeeklyUpdate) (c : UpdatePatch) : WeeklyUpdate :=
  { id := c.id.getD u.id
    weekDate := c.weekDate.getD u.weekDate
    accomplishments := c.accomplishments.getD u.accomplishments
    nextSteps := c.nextSteps.getD u.nextSteps
    progress := c.progress.getD u.progress
    estimatedCompletion := c.estimatedCompletion.getD u.estimatedCompletion
    challenges := c.challenges.getD u.challenges
    supportNeeded := c.supportNeeded.getD u.supportNeeded
    notes := c.notes.getD u.notes
    createdAt := c.createdAt.getD u.createdAt }

/-- updateProject from projectStore.ts lines 242-248.  The store state is
the projects list; now stands for new Date().toISOString(). -/
def updateProject (ps : List Project) (id : Str) (c : ProjectPatch) (now : Int) :
    List Project :=
  ps.map fun p => if p.id = id then applyProjectPatch p c now else p

/-- deleteProject from projectStore.ts lines 250-254. -/
def deleteProject (ps : List Project) (id : Str) : List Project :=
  ps.filter fun p => decide (p.id ≠ id)

/-- The new WeeklyUpdate built by addWeeklyUpdate (projectStore.ts lines
257-261): `{ ...updateData, id: generateId(), createdAt: now }`; the
generated id is the newId parameter. -/
def mkWeeklyUpdate (d : UpdateData) (newId : Str) (now : Int) : WeeklyUpdate :=
  { id := newId
    weekDate := d.weekDate
    accomplishments := d.accomplishments
    nextSteps := d.nextSteps
    progress := d.progress
    estimatedCompletion := d.estimatedCompletion
    challenges := d.challenges
    supportNeeded := d.supportNeeded
    notes := d.notes
    createdAt := now }

/-- addWeeklyUpdate from projectStore.ts lines 256-274. -/
def addWeeklyUpdate (ps : List Project) (projectId : Str) (d : UpdateData)
    (newId : Str) (now : Int) : List Project :=
  ps.map fun p =>
    if p.id = projectId then
      { p with
        weeklyUpdates := p.weeklyUpdates ++ [mkWeeklyUpdate d newId now]
        currentProgress := d.progress
        updatedAt := now }
    else p

/-- updateWeeklyUpdate from projectStore.ts lines 276-291.
`changes.progress ?? p.currentProgress` is `c.progress.getD`. -/
def updateWeeklyUpdate (ps : List Project) (projectId updateId : Str)
    (c : UpdatePatch) (now : Int) : List Project :=
  ps.map fun p =>
    if p.id = projectId then
      { p with
        weeklyUpdates :=
          p.weeklyUpdates.map fun u =>
            if u.id = updateId then applyUpdatePatch u c else u
        currentProgress := c.progress.getD p.currentProgress
        updatedAt := now }
    else p

/-- deleteWeeklyUpdate from projectStore.ts lines 293-305. -/
def deleteWeeklyUpdate (ps : List Project) (projectId updateId : Str)
    (now : Int) : List Project :=
  ps.map fun p =>
    if p.id = projectId then
      { p with
        weeklyUpdates := p.weeklyUpdates.filter fun u => decide (u.id ≠ updateId)
        updatedAt := now }
    else p

/-- JS Date.prototype.getDay on a date given as a day number: 0 = Sunday
.. 6 = Saturday.  Day 0 (1970-01-01) was a Thursday (getDay = 4). -/
def jsGetDay (d : Int) : Int := (d + 4) % 7

/-- getWeekMonday from ui/src/utils/dateUtils.ts lines 2-9 (the same
computation is repeated as getMondayOfWeek / getMonday in the Reports
page): `diff = d.getDate() - day + (day === 0 ? -6 : 1)`, i.e. the day
number moves by `-day + (day == 0 ? -6 : 1)`. -/
def getWeekMonday (d : Int) : Int :=
  let day := jsGetDay d
  d - day + (if day = 0 then -6 else 1)

/-- Summary statistics record returned by summaryStats in the Reports
page and in PresentationMode: total, onTrack, atRisk, delayed,
completed, avgProgress — and no other field. -/
structure SummaryStats where
  total : Nat
  onTrack : Nat
  atRisk : Nat
  delayed : Nat
  completed : Nat
  avgProgress : Int
deriving DecidableEq

/-- `projects.filter((p) => p.status === s).length`. -/
def statusCount (ps : List Project) (s : Status) : Nat :=
  (ps.filter fun p => decide (p.status = s)).length

/-- `projects.reduce((acc, p) => acc + p.currentProgress, 0)`. -/
def sumProgress (ps : List Project) : Int :=
  ps.foldl (fun acc p => acc + p.currentProgress) 0

/-- Math.round(num/den) for den > 0 on exact rationals:
floor(num/den + 1/2) (JS Math.round rounds halves toward plus
infinity). -/
def mathRoundDiv (num den : Int) : Int := (2 * num + den) / (2 * den)

/-- summaryStats from the Reports page (and identically in
PresentationMode): total, the four status counts the code computes (it
computes no on_hold count), and the rounded average of
currentProgress, 0 when there are no projects. -/
def summaryStats (ps : List Project) : SummaryStats :=
  { total := ps.length
    onTrack := statusCount ps .on_track
    atRisk := statusCount ps .at_risk
    delayed := statusCount ps .delayed
    completed := statusCount ps .completed
    avgProgress :=
      if 0 < ps.length then mathRoundDiv (sumProgress ps) (ps.length : Int) else 0 }

/-- First element of
`us.sort((a, b) => b.weekDate.localeCompare(a.weekDate))[0]`: JS sort is
stable, so sorting descending by weekDate and taking index 0 yields the
first element (in original order) with maximal weekDate; undefined
(none) on the empty array. -/
def pickLater (acc : Option WeeklyUpdate) (u : WeeklyUpdate) : Option WeeklyUpdate :=
  match acc with
  | none => some u
  | some a => if a.weekDate < u.weekDate then some u else acc

/-- Folding pickLater keeps the first element (in original order) with
the strictly greatest weekDate, which is the element at index 0 of the
stable descending sort the code performs. -/
def firstMaxByWeekDate (us : List WeeklyUpdate) : Option WeeklyUpdate :=
  us.foldl pickLater none

/-- The closestUpdate computation of the Reports page (progressChartData
lines 127-131 and the active-projects list lines 523-526): the update
whose weekDate equals the selected Monday exactly, otherwise the most
recent update with weekDate on or before that Monday. -/
def closestUpdate (p : Project) (selectedMonday : Int) : Option WeeklyUpdate :=
  match p.weeklyUpdates.find? (fun u => decide (u.weekDate = selectedMonday)) with
  | some u => some u
  | none =>
      firstMaxByWeekDate
        (p.weeklyUpdates.filter fun u => decide (u.weekDate ≤ selectedMonday))

/-- The progress the Reports page charts for one project at the queried
date d: `closestUpdate?.progress ?? 0`, where the update is looked up
relative to the Monday of d's week. -/
def progressForDate (p : Project) (d : Int) : Int :=
  ((closestUpdate p (getWeekMonday d)).map WeeklyUpdate.progress).getD 0

/-- progressChartData from the Reports page lines 121-139: the first 8
projects, each mapped to its progress at the queried date (the name
truncation done for display labels is omitted). -/
def progressChartData (ps : List Project) (d : Int) : List Int :=
  (ps.take 8).map fun p => progressForDate p d

/-- The trend time ranges of the Reports page. -/
inductive TrendRange
  | week
  | month
  | quarter
  | twoQuarters
  | year
deriving DecidableEq

/-- rangeWeeks from progressTrendData lines 200-206. -/
def rangeWeeks : TrendRange → Nat
  | .week => 1
  | .month => 4
  | .quarter => 13
  | .twoQuarters => 26
  | .year => 52

/-- isDateInWeek from progressTrendData lines 188-194: weekMonday <=
date <= weekSunday, where weekSunday is weekMonday + 6 at end of day
(weekDate values are midnight dates, so this is date <= m + 6). -/
def isDateInWeek (date m : Int) : Bool := decide (m ≤ date ∧ date ≤ m + 6)

/-- `project.weeklyUpdates.find((u) => isDateInWeek(u.weekDate, weekMonday))`
mapped to `weekUpdate ? weekUpdate.progress : null`. -/
def bucketValue (p : Project) (m : Int) : Option Int :=
  (p.weeklyUpdates.find? fun u => isDateInWeek u.weekDate m).map WeeklyUpdate.progress

/-- progressTrendData from the Reports page lines 173-231: the loop runs
i = numWeeks-1 down to 0 pushing the bucket at Monday cm - 7*i, so the
j-th emitted bucket (oldest first) is at Monday cm - 7*(numWeeks-1-j);
each bucket holds one Option value per charted project (the week label
string of the code is omitted). -/
def progressTrendData (ps : List Project) (d : Int) (r : TrendRange) :
    List (List (Option Int)) :=
  let cm := getWeekMonday d
  let n := rangeWeeks r
  (List.range n).map fun j =>
    let m := cm - 7 * ((n - 1 - j : Nat) : Int)
    (ps.take 8).map fun p => bucketValue p m

/-- Whitespace in the sense of JS String.prototype.trim, restricted to
the ASCII whitespace characters (the full JS set also has Unicode
spaces, which never occur in the claims studied here). -/
def isJsWhitespace (c : Char) : Bool :=
  c = ' ' || c = '\t' || c = '\n' || c = '\r'

/-- `s.trim()` is falsy (the filter callbacks in the normalization
helpers drop an item) exactly when every character is whitespace; the
empty string is blank. -/
def jsBlank (s : Str) : Bool := s.all isJsWhitespace

/-- JS String.prototype.split with the single-character newline
separator: splits into the (possibly empty) segments between newlines;
the empty string yields one empty segment. -/
def splitNl : Str → List Str
  | [] => [[]]
  | c :: rest =>
      if c = '\n' then [] :: splitNl rest
      else (c :: (splitNl rest).headI) :: (splitNl rest).tail

/-- `items.join('\n')`. -/
def joinNl : List Str → Str
  | [] => []
  | [x] => x
  | x :: y :: ys => x ++ '\n' :: joinNl (y :: ys)

/-- normalizeToArray from ui/src/types/index.ts lines 113-117.  `none`
is the undefined argument; a falsy argument (undefined or the empty
string) yields []; arrays (always truthy in JS) are filtered for blank
items; strings are split on newline and blank lines dropped. -/
def normalizeToArray : Option StrOrList → List Str
  | none => []
  | some (.arr l) => l.filter fun i => !(jsBlank i)
  | some (.str s) =>
      if s = [] then [] else (splitNl s).filter fun l => !(jsBlank l)

/-- normalizeToString from ui/src/types/index.ts lines 119-123: arrays
are filtered for blank items and joined with newlines; a string is
passed through unchanged (the falsy guard returns the empty string for
the empty string, which is the same). -/
def normalizeToString : Option StrOrList → Str
  | none => []
  | some (.arr l) => joinNl (l.filter fun i => !(jsBlank i))
  | some (.str s) => s

/-- Default Project used with List.getD when indexing project lists. -/
def defProject : Project :=
  { id := []
    name := []
    description := []
    status := .on_track
    category := .project
    startDate := 0
    targetEndDate := 0
    currentProgress := 0
    owner := []
    weeklyUpdates := []
    createdAt := 0
    updatedAt := 0 }

/-- Default WeeklyUpdate, used as a base for concrete sample updates. -/
def defWeeklyUpdate : WeeklyUpdate :=
  { id := []
    weekDate := 0
    accomplishments := .arr []
    nextSteps := none
    progress := 0
    estimatedCompletion := 0
    challenges := .arr []
    supportNeeded := []
    notes := []
    createdAt := 0 }

/-- UpdatePatch with every key absent. -/
def emptyUpdatePatch : UpdatePatch :=
  { id := none
    weekDate := none
    accomplishments := none
    nextSteps := none
    progress := none
    estimatedCompletion := none
    challenges := none
    supportNeeded := none
    notes := none
    createdAt := none }

/-- ProjectPatch with every key absent. -/
def emptyProjectPatch : ProjectPatch :=
  { id := none
    name := none
    description := none
    status := none
    category := none
    startDate := none
    targetEndDate := none
    currentProgress := none
    owner := none
    weeklyUpdates := none
    createdAt := none }

/-! Helper lemmas. -/

theorem splitNl_ne_nil (s : Str) : splitNl s ≠ [] := by
  cases s with
  | nil => simp [splitNl]
  | cons c rest =>
      simp only [splitNl]
      split <;> simp

theorem splitNl_no_newline (s : Str) (h : '\n' ∉ s) : splitNl s = [s] := by
  induction s with
  | nil => rfl
  | cons c rest ih =>
      have hc : ¬(c = '\n') := fun e => h (by simp [e])
      have hr : '\n' ∉ rest := fun m => h (List.mem_cons_of_mem _ m)
      simp [splitNl, hc, ih hr]

theorem splitNl_append (x r : Str) (h : '\n' ∉ x) :
    splitNl (x ++ '\n' :: r) = x :: splitNl r := by
  induction x with
  | nil => simp [splitNl]
  | cons c xs ih =>
      have hc : ¬(c = '\n') := fun e => h (by simp [e])
      have hx : '\n' ∉ xs := fun m => h (List.mem_cons_of_mem _ m)
      simp [splitNl, hc, ih hx]

theorem splitNl_joinNl (L : List Str) (hne : L ≠ []) (h : ∀ s ∈ L, '\n' ∉ s) :
    splitNl (joinNl L) = L := by
  induction L with
  | nil => exact absurd rfl hne
  | cons x xs ih =>
      cases xs with
      | nil => exact splitNl_no_newline x (h x (by simp))
      | cons y ys =>
          rw [joinNl, splitNl_append x _ (h x (by simp)),
            ih (by simp) (fun s hs => h s (List.mem_cons_of_mem _ hs))]

theorem mathRoundDiv_bounds (s t : Int) (ht : 0 < t) :
    t * (2 * mathRoundDiv s t - 1) ≤ 2 * s ∧
    2 * s < t * (2 * mathRoundDiv s t + 1) := by
  unfold mathRoundDiv
  have hdm := Int.ediv_add_emod (2 * s + t) (2 * t)
  have hnn := Int.emod_nonneg (2 * s + t) (by omega : (2 * t) ≠ 0)
  have hlt := Int.emod_lt_of_pos (2 * s + t) (by omega : (0:Int) < 2 * t)
  constructor <;> nlinarith [hdm, hnn, hlt]

theorem statusCount_cons (p : Project) (ps : List Project) (s : Status) :
    statusCount (p :: ps) s =
      statusCount ps s + (if p.status = s then 1 else 0) := by
  simp only [statusCount, List.filter_cons]
  split <;> simp_all

theorem statusCount_partition (ps : List Project) :
    statusCount ps .on_track + statusCount ps .at_risk + statusCount ps .delayed +
      statusCount ps .completed + statusCount ps .on_hold = ps.length := by
  induction ps with
  | nil => rfl
  | cons p ps ih =>
      simp only [statusCount_cons, List.length_cons]
      cases p.status <;> simp <;> omega

theorem getD_map_lt {α : Type} (l : List α) (f : α → α) (dflt : α) (j : Nat)
    (h : j < l.length) : (l.map f).getD j dflt = f (l.getD j dflt) := by
  rw [List.getD_eq_getElem _ _ (by simpa using h), List.getD_eq_getElem _ _ h,
    List.getElem_map]

theorem map_id_of_forall_mem {α : Type} (l : List α) (f : α → α)
    (h : ∀ x ∈ l, f x = x) : l.map f = l := by
  induction l with
  | nil => rfl
  | cons x xs ih =>
      simp only [List.map_cons, h x (by simp),
        ih fun y hy => h y (List.mem_cons_of_mem _ hy)]

/-! Concrete sample data used by witnesses and counterexamples. -/

/-- Sample project with a given id character, status and progress. -/
def statusProject (c : Char) (s : Status) (prog : Int) : Project :=
  { defProject with id := [c], status := s, currentProgress := prog }

/-- Sample updateData argument for addWeeklyUpdate. -/
def sampleUpdateData : UpdateData :=
  { weekDate := 19723
    accomplishments := .arr []
    nextSteps := none
    progress := 77
    estimatedCompletion := 0
    challenges := .arr []
    supportNeeded := []
    notes := [] }

/-- Sample update dated Monday 2024-01-01 (day 19723) with progress 10. -/
def sampleUpd : WeeklyUpdate :=
  { defWeeklyUpdate with id := ['u'], weekDate := 19723, progress := 10 }

/-- Sample update dated Monday 2024-01-15 (day 19737) with progress 30. -/
def sampleUpd2 : WeeklyUpdate :=
  { defWeeklyUpdate with id := ['v'], weekDate := 19737, progress := 30 }

/-- Project with updates at 2024-01-01 (progress 10) and 2024-01-15
(progress 30) and none in between: scenario C of the specification. -/
def scenarioCProj : Project :=
  { defProject with id := ['p'], weeklyUpdates := [sampleUpd, sampleUpd2] }

/-- A collection with three on_hold projects among six: its summary
record contains no component equal to its on_hold count. -/
def c2cexProjects : List Project :=
  [statusProject 'a' .on_hold 50, statusProject 'b' .on_hold 50,
    statusProject 'c' .on_hold 50, statusProject 'd' .on_track 50,
    statusProject 'e' .on_track 50, statusProject 'f' .at_risk 50]

/-- Scenario D of the specification: statuses
[on_track, on_track, at_risk, completed], with progresses summing to 222
so that the mean 55.5 exercises round-half-up. -/
def scenarioDProjects : List Project :=
  [statusProject 'a' .on_track 80, statusProject 'b' .on_track 70,
    statusProject 'c' .at_risk 30, statusProject 'd' .completed 42]

/-! Claim theorems. -/

/-- C2 (counterexample): summaryStats does not return an on_hold count.
On a collection whose on_hold count is 3, the returned record is
exactly ⟨total 6, onTrack 2, atRisk 1, delayed 0, completed 0,
avgProgress 50⟩ and none of its components equals 3. -/
theorem summaryStats_no_onHold_count :
    statusCount c2cexProjects .on_hold = 3 ∧
    summaryStats c2cexProjects = ⟨6, 2, 1, 0, 0, 50⟩ ∧
    (6 : Nat) ≠ 3 ∧ (2 : Nat) ≠ 3 ∧ (1 : Nat) ≠ 3 ∧ (0 : Nat) ≠ 3 ∧
    (50 : Int) ≠ 3 := by decide

/-- C2 (amended): summaryStats returns the total project count, counts
for the four statuses on_track, at_risk, delayed and completed (no
on_hold count is computed; it is only recoverable as total minus the
other four, since the five statuses partition the collection), and,
when the collection is nonempty, the average currentProgress rounded to
the nearest integer with halves rounded up: avgProgress is the unique
integer a with a - 1/2 <= mean < a + 1/2, stated below multiplied out.
-/
theorem summaryStats_spec (ps : List Project) :
    (summaryStats ps).total = ps.length ∧
    (summaryStats ps).onTrack = statusCount ps .on_track ∧
    (summaryStats ps).atRisk = statusCount ps .at_risk ∧
    (summaryStats ps).delayed = statusCount ps .delayed ∧
    (summaryStats ps).completed = statusCount ps .completed ∧
    statusCount ps .on_track + statusCount ps .at_risk + statusCount ps .delayed +
      statusCount ps .completed + statusCount ps .on_hold = ps.length ∧
    (0 < ps.length →
      (ps.length : Int) * (2 * (summaryStats ps).avgProgress - 1) ≤
        2 * sumProgress ps ∧
      2 * sumProgress ps <
        (ps.length : Int) * (2 * (summaryStats ps).avgProgress + 1)) := by
  refine ⟨rfl, rfl, rfl, rfl, rfl, statusCount_partition ps, fun hpos => ?_⟩
  have hav : (summaryStats ps).avgProgress =
      mathRoundDiv (sumProgress ps) (ps.length : Int) := by
    simp [summaryStats, hpos]
  rw [hav]
  exact mathRoundDiv_bounds (sumProgress ps) (ps.length : Int) (by exact_mod_cast hpos)

/-- C2 (witness): the amended theorem applied to the scenario-D
collection, where the code returns total 4, onTrack 2, atRisk 1,
delayed 0, completed 1 and avgProgress 56 = round(55.5). -/
theorem summaryStats_spec_witness :
    summaryStats scenarioDProjects = ⟨4, 2, 1, 0, 1, 56⟩ ∧
    0 < scenarioDProjects.length ∧
    ((scenarioDProjects.length : Int) *
        (2 * (summaryStats scenarioDProjects).avgProgress - 1) ≤
      2 * sumProgress scenarioDProjects ∧
    2 * sumProgress scenarioDProjects <
      (scenarioDProjects.length : Int) *
        (2 * (summaryStats scenarioDProjects).avgProgress + 1)) :=
  ⟨by decide, by decide,
    (summaryStats_spec scenarioDProjects).2.2.2.2.2.2 (by decide)⟩

/-- C9: getWeekMonday maps every date to the Monday on or before it
(it lands on a Monday, does not move forward, moves back at most six
days — so a Sunday is sent to the previous week's Monday), and it is
idempotent. -/
theorem getWeekMonday_spec (d : Int) :
    jsGetDay (getWeekMonday d) = 1 ∧
    getWeekMonday d ≤ d ∧
    d - getWeekMonday d ≤ 6 ∧
    getWeekMonday (getWeekMonday d) = getWeekMonday d := by
  simp only [getWeekMonday, jsGetDay]
  split_ifs <;> omega

/-- C10: on the empty project collection, summaryStats returns zero for
every field; in particular the average progress is 0, the positive-count
guard short-circuiting the division. -/
theorem summaryStats_empty : summaryStats [] = ⟨0, 0, 0, 0, 0, 0⟩ := by decide

/-- C8 (counterexample): the text-list roundtrip is not the identity on
every list of non-blank strings: an item containing a newline is split
in two on the way back. -/
theorem normalize_roundtrip_cex :
    jsBlank ['a', '\n', 'b'] = false ∧
    normalizeToArray (some (.str (normalizeToString (some (.arr [['a', '\n', 'b']]))))) =
      [['a'], ['b']] ∧
    ([['a'], ['b']] : List Str) ≠ [['a', '\n', 'b']] := by decide

/-- C8 (amended): for every list of non-blank strings none of which
contains a newline, normalizing to text and back to a list is the
identity. -/
theorem normalize_roundtrip (L : List Str)
    (h : ∀ s ∈ L, jsBlank s = false ∧ '\n' ∉ s) :
    normalizeToArray (some (.str (normalizeToString (some (.arr L))))) = L := by
  have hfilter : (L.filter fun i => !(jsBlank i)) = L := by
    refine List.filter_eq_self.mpr fun a ha => ?_
    simp [(h a ha).1]
  simp only [normalizeToString, hfilter]
  cases L with
  | nil => rfl
  | cons x xs =>
      have hxblank : jsBlank x = false := (h x (by simp)).1
      have hxne : x ≠ [] := by
        intro e
        rw [e] at hxblank
        simp [jsBlank] at hxblank
      have hne : joinNl (x :: xs) ≠ [] := by
        cases xs with
        | nil => simpa [joinNl] using hxne
        | cons y ys =>
            simp only [joinNl]
            cases x <;> simp
      simp only [normalizeToArray, if_neg hne]
      rw [splitNl_joinNl (x :: xs) (by simp) (fun s hs => (h s hs).2)]
      exact hfilter

/-- C8 (witness): the roundtrip theorem applied to a concrete two-item
list of non-blank newline-free strings. -/
theorem normalize_roundtrip_witness :
    (∀ s ∈ ([['h', 'i'], ['y', 'o']] : List Str), jsBlank s = false ∧ '\n' ∉ s) ∧
    normalizeToArray
      (some (.str (normalizeToString (some (.arr [['h', 'i'], ['y', 'o']]))))) =
      [['h', 'i'], ['y', 'o']] :=
  ⟨by decide, normalize_roundtrip _ (by decide)⟩

/-- Project with id p, progress 10, no updates yet, updatedAt 0. -/
def c1proj : Project :=
  { defProject with id := ['p'], currentProgress := 10 }

/-- Changes object carrying only a progress key. -/
def c1patch : UpdatePatch := { emptyUpdatePatch with progress := some 55 }

/-- C1 (counterexample): a mutating call that names an existing project
but an update id not present on it is not a no-op: updateWeeklyUpdate
overwrites currentProgress (and updatedAt), and deleteWeeklyUpdate
overwrites updatedAt, so the store state changes. -/
theorem updateWeeklyUpdate_unknown_updateId_not_noop :
    (['z'] : Str) ∉ c1proj.weeklyUpdates.map WeeklyUpdate.id ∧
    updateWeeklyUpdate [c1proj] ['p'] ['z'] c1patch 1 ≠ [c1proj] ∧
    deleteWeeklyUpdate [c1proj] ['p'] ['z'] 1 ≠ [c1proj] := by decide

/-- C1 (amended): a mutating call naming a project id that is absent
from the collection is a silent no-op for all five operations; but when
the project id exists and the update id is absent, updateWeeklyUpdate
and deleteWeeklyUpdate leave weeklyUpdates unchanged yet still stamp
updatedAt with now, and updateWeeklyUpdate additionally sets
currentProgress to changes.progress when that key is present. -/
theorem notFound_behavior (ps : List Project) (pc : ProjectPatch) (ud : UpdateData)
    (uc : UpdatePatch) (pid nid uid : Str) (now : Int) :
    ((∀ p ∈ ps, p.id ≠ pid) →
      updateProject ps pid pc now = ps ∧
      deleteProject ps pid = ps ∧
      addWeeklyUpdate ps pid ud nid now = ps ∧
      updateWeeklyUpdate ps pid uid uc now = ps ∧
      deleteWeeklyUpdate ps pid uid now = ps) ∧
    (∀ j, j < ps.length → (ps.getD j defProject).id = pid →
      uid ∉ (ps.getD j defProject).weeklyUpdates.map WeeklyUpdate.id →
      (updateWeeklyUpdate ps pid uid uc now).getD j defProject =
        { ps.getD j defProject with
            currentProgress := uc.progress.getD (ps.getD j defProject).currentProgress
            updatedAt := now } ∧
      (deleteWeeklyUpdate ps pid uid now).getD j defProject =
        { ps.getD j defProject with updatedAt := now }) := by
  constructor
  · intro h
    refine ⟨?_, ?_, ?_, ?_, ?_⟩
    · exact map_id_of_forall_mem _ _ fun p hp => if_neg (h p hp)
    · exact List.filter_eq_self.mpr fun p hp => decide_eq_true (h p hp)
    · exact map_id_of_forall_mem _ _ fun p hp => if_neg (h p hp)
    · exact map_id_of_forall_mem _ _ fun p hp => if_neg (h p hp)
    · exact map_id_of_forall_mem _ _ fun p hp => if_neg (h p hp)
  · intro j hj hid hnot
    have hids : ∀ u ∈ (ps.getD j defProject).weeklyUpdates, u.id ≠ uid := by
      intro u hu he
      exact hnot (he ▸ List.mem_map_of_mem WeeklyUpdate.id hu)
    constructor
    · rw [updateWeeklyUpdate, getD_map_lt _ _ _ j hj, if_pos hid,
        map_id_of_forall_mem _ _ fun u hu => if_neg (hids u hu)]
    · rw [deleteWeeklyUpdate, getD_map_lt _ _ _ j hj, if_pos hid,
        List.filter_eq_self.mpr fun u hu => decide_eq_true (hids u hu)]

/-- C1 (witness): the amended theorem at a one-project store: calls
naming the absent project id q are no-ops, and calls naming project p
with the absent update id z act as described. -/
theorem notFound_behavior_witness :
    (updateProject [c1proj] ['q'] emptyProjectPatch 3 = [c1proj] ∧
      deleteProject [c1proj] ['q'] = [c1proj] ∧
      addWeeklyUpdate [c1proj] ['q'] sampleUpdateData ['n'] 3 = [c1proj] ∧
      updateWeeklyUpdate [c1proj] ['q'] ['z'] c1patch 3 = [c1proj] ∧
      deleteWeeklyUpdate [c1proj] ['q'] ['z'] 3 = [c1proj]) ∧
    ((updateWeeklyUpdate [c1proj] ['p'] ['z'] c1patch 3).getD 0 defProject =
      { c1proj with
          currentProgress := c1patch.progress.getD c1proj.currentProgress
          updatedAt := 3 } ∧
    (deleteWeeklyUpdate [c1proj] ['p'] ['z'] 3).getD 0 defProject =
      { c1proj with updatedAt := 3 }) :=
  ⟨(notFound_behavior [c1proj] emptyProjectPatch sampleUpdateData c1patch
      ['q'] ['n'] ['z'] 3).1 (by decide),
    (notFound_behavior [c1proj] emptyProjectPatch sampleUpdateData c1patch
      ['p'] ['n'] ['z'] 3).2 0 (by decide) (by decide) (by decide)⟩

/-- Project with id a. -/
def c4proj : Project := { defProject with id := ['a'] }

/-- Partial project changes carrying an id key. -/
def c4patch : ProjectPatch := { emptyProjectPatch with id := some ['b'] }

/-- C4 (counterexample): updateProject spreads the changes object over
the project, so a changes object containing an id key rewrites the
project's id: updating project a with changes id = b leaves the store
holding a project whose id is b. -/
theorem updateProject_changes_id :
    c4proj.id = ['a'] ∧
    (updateProject [c4proj] ['a'] c4patch 5).map Project.id = [['b']] ∧
    (['b'] : Str) ≠ ['a'] := by decide

/-- C4 (amended): project ids are stable under every store operation
except an updateProject whose changes object itself carries an id key:
updateProject with no id key, addWeeklyUpdate, updateWeeklyUpdate and
deleteWeeklyUpdate preserve the list of project ids, and deleteProject
only removes projects (every survivor was in the original list). -/
theorem project_ids_stable (ps : List Project) (pc : ProjectPatch) (ud : UpdateData)
    (uc : UpdatePatch) (pid nid uid : Str) (now : Int) :
    (pc.id = none →
      (updateProject ps pid pc now).map Project.id = ps.map Project.id) ∧
    (addWeeklyUpdate ps pid ud nid now).map Project.id = ps.map Project.id ∧
    (updateWeeklyUpdate ps pid uid uc now).map Project.id = ps.map Project.id ∧
    (deleteWeeklyUpdate ps pid uid now).map Project.id = ps.map Project.id ∧
    (∀ p ∈ deleteProject ps pid, p ∈ ps) := by
  refine ⟨fun hpc => ?_, ?_, ?_, ?_, ?_⟩
  · rw [updateProject, List.map_map]
    refine List.map_congr_left fun p _ => ?_
    by_cases h : p.id = pid
    · simp [h, applyProjectPatch, hpc]
    · simp [h]
  · rw [addWeeklyUpdate, List.map_map]
    refine List.map_congr_left fun p _ => ?_
    by_cases h : p.id = pid <;> simp [h]
  · rw [updateWeeklyUpdate, List.map_map]
    refine List.map_congr_left fun p _ => ?_
    by_cases h : p.id = pid <;> simp [h]
  · rw [deleteWeeklyUpdate, List.map_map]
    refine List.map_congr_left fun p _ => ?_
    by_cases h : p.id = pid <;> simp [h]
  · exact fun p hp => List.mem_of_mem_filter hp

/-- C4 (witness): the amended theorem at a one-project store with an
id-free changes object. -/
theorem project_ids_stable_witness :
    (updateProject [c4proj] ['a'] emptyProjectPatch 5).map Project.id =
      [c4proj].map Project.id :=
  (project_ids_stable [c4proj] emptyProjectPatch sampleUpdateData
    emptyUpdatePatch ['a'] ['n'] ['z'] 5).1 rfl

theorem filter_ne_id_length (l : List WeeklyUpdate) (uid : Str)
    (hnd : (l.map WeeklyUpdate.id).Nodup)
    (hmem : uid ∈ l.map WeeklyUpdate.id) :
    (l.filter fun u => decide (u.id ≠ uid)).length + 1 = l.length := by
  induction l with
  | nil => simp at hmem
  | cons u l ih =>
      simp only [List.map_cons, List.nodup_cons, List.mem_cons] at hnd hmem
      by_cases h : u.id = uid
      · have hrest : ∀ v ∈ l, v.id ≠ uid := by
          intro v hv he
          exact hnd.1 (h ▸ he ▸ List.mem_map_of_mem WeeklyUpdate.id hv)
        rw [List.filter_cons_of_neg (by simpa using h),
          List.filter_eq_self.mpr fun v hv => decide_eq_true (hrest v hv)]
        simp
      · have hm : uid ∈ l.map WeeklyUpdate.id :=
          hmem.resolve_left fun e => h e.symm
        rw [List.filter_cons_of_pos (by simpa using h)]
        simpa using ih hnd.2 hm

/-- C5: for an existing project (position j, matching project id),
addWeeklyUpdate sets currentProgress to the update data's progress,
appends exactly one new element at the end of weeklyUpdates, and the
new element carries the generated id, which — the generator being
modelled as an input assumed fresh — is distinct from every update id
previously on the project. -/
theorem addWeeklyUpdate_spec (ps : List Project) (pid : Str) (ud : UpdateData)
    (nid : Str) (now : Int) (j : Nat) (hj : j < ps.length)
    (hid : (ps.getD j defProject).id = pid)
    (hfresh : nid ∉ (ps.getD j defProject).weeklyUpdates.map WeeklyUpdate.id) :
    ((addWeeklyUpdate ps pid ud nid now).getD j defProject).currentProgress =
      ud.progress ∧
    ((addWeeklyUpdate ps pid ud nid now).getD j defProject).weeklyUpdates =
      (ps.getD j defProject).weeklyUpdates ++ [mkWeeklyUpdate ud nid now] ∧
    ((addWeeklyUpdate ps pid ud nid now).getD j defProject).weeklyUpdates.length =
      (ps.getD j defProject).weeklyUpdates.length + 1 ∧
    (mkWeeklyUpdate ud nid now).id ∉
      (ps.getD j defProject).weeklyUpdates.map WeeklyUpdate.id := by
  rw [addWeeklyUpdate, getD_map_lt _ _ _ j hj, if_pos hid]
  exact ⟨rfl, rfl, by simp, hfresh⟩

/-- C5 (witness): the theorem at a one-project store whose project p
holds one update with id u; the generated id n is fresh. -/
theorem addWeeklyUpdate_spec_witness :
    ((addWeeklyUpdate [scenarioCProj] ['p'] sampleUpdateData ['n'] 7).getD 0
        defProject).currentProgress = sampleUpdateData.progress ∧
    ((addWeeklyUpdate [scenarioCProj] ['p'] sampleUpdateData ['n'] 7).getD 0
        defProject).weeklyUpdates =
      scenarioCProj.weeklyUpdates ++ [mkWeeklyUpdate sampleUpdateData ['n'] 7] ∧
    ((addWeeklyUpdate [scenarioCProj] ['p'] sampleUpdateData ['n'] 7).getD 0
        defProject).weeklyUpdates.length =
      scenarioCProj.weeklyUpdates.length + 1 ∧
    (mkWeeklyUpdate sampleUpdateData ['n'] 7).id ∉
      scenarioCProj.weeklyUpdates.map WeeklyUpdate.id :=
  addWeeklyUpdate_spec [scenarioCProj] ['p'] sampleUpdateData ['n'] 7 0
    (by decide) (by decide) (by decide)

/-- C7: for an existing project (position j, matching project id) whose
update ids are distinct and contain updateId, deleteWeeklyUpdate keeps
currentProgress exactly as it was (it is never recomputed from the
remaining updates), removes exactly one element, and the remaining
updates are exactly those whose id differs from updateId. -/
theorem deleteWeeklyUpdate_spec (ps : List Project) (pid uid : Str) (now : Int)
    (j : Nat) (hj : j < ps.length) (hid : (ps.getD j defProject).id = pid)
    (hnd : ((ps.getD j defProject).weeklyUpdates.map WeeklyUpdate.id).Nodup)
    (hmem : uid ∈ (ps.getD j defProject).weeklyUpdates.map WeeklyUpdate.id) :
    ((deleteWeeklyUpdate ps pid uid now).getD j defProject).currentProgress =
      (ps.getD j defProject).currentProgress ∧
    ((deleteWeeklyUpdate ps pid uid now).getD j defProject).weeklyUpdates.length
        + 1 = (ps.getD j defProject).weeklyUpdates.length ∧
    (∀ u ∈ (ps.getD j defProject).weeklyUpdates,
      (u ∈ ((deleteWeeklyUpdate ps pid uid now).getD j defProject).weeklyUpdates ↔
        u.id ≠ uid)) := by
  rw [deleteWeeklyUpdate, getD_map_lt _ _ _ j hj, if_pos hid]
  refine ⟨rfl, filter_ne_id_length _ uid hnd hmem, fun u hu => ?_⟩
  simp only [List.mem_filter, decide_eq_true_eq]
  exact ⟨fun h => h.2, fun h => ⟨hu, h⟩⟩

/-- C7 (witness): deleting the most recent update (id v, progress 30)
from the scenario-C project removes exactly that update and leaves
currentProgress untouched. -/
theorem deleteWeeklyUpdate_spec_witness :
    ((deleteWeeklyUpdate [scenarioCProj] ['p'] ['v'] 9).getD 0
        defProject).currentProgress = scenarioCProj.currentProgress ∧
    ((deleteWeeklyUpdate [scenarioCProj] ['p'] ['v'] 9).getD 0
        defProject).weeklyUpdates.length + 1 =
      scenarioCProj.weeklyUpdates.length ∧
    (∀ u ∈ scenarioCProj.weeklyUpdates,
      (u ∈ ((deleteWeeklyUpdate [scenarioCProj] ['p'] ['v'] 9).getD 0
          defProject).weeklyUpdates ↔ u.id ≠ ['v'])) :=
  deleteWeeklyUpdate_spec [scenarioCProj] ['p'] ['v'] 9 0
    (by decide) (by decide) (by decide) (by decide)

theorem pickLater_go (l : List WeeklyUpdate) (a : WeeklyUpdate) :
    ∃ u, List.foldl pickLater (some a) l = some u ∧ (u = a ∨ u ∈ l) ∧
      a.weekDate ≤ u.weekDate ∧ ∀ v ∈ l, v.weekDate ≤ u.weekDate := by
  induction l generalizing a with
  | nil => exact ⟨a, rfl, Or.inl rfl, le_refl _, by simp⟩
  | cons b l ih =>
      simp only [List.foldl_cons]
      by_cases hab : a.weekDate < b.weekDate
      · obtain ⟨u, h1, h2, h3, h4⟩ := ih b
        refine ⟨u, ?_, ?_, le_trans (le_of_lt hab) h3, ?_⟩
        · simpa [pickLater, hab] using h1
        · rcases h2 with h2 | h2
          · exact Or.inr (h2 ▸ List.mem_cons_self b l)
          · exact Or.inr (List.mem_cons_of_mem b h2)
        · intro v hv
          rcases List.mem_cons.mp hv with hv | hv
          · exact hv ▸ h3
          · exact h4 v hv
      · obtain ⟨u, h1, h2, h3, h4⟩ := ih a
        refine ⟨u, ?_, ?_, h3, ?_⟩
        · simpa [pickLater, hab] using h1
        · rcases h2 with h2 | h2
          · exact Or.inl h2
          · exact Or.inr (List.mem_cons_of_mem b h2)
        · intro v hv
          rcases List.mem_cons.mp hv with hv | hv
          · exact hv ▸ le_trans (not_lt.mp hab) h3
          · exact h4 v hv

theorem firstMaxByWeekDate_spec (l : List WeeklyUpdate) (hne : l ≠ []) :
    ∃ u, firstMaxByWeekDate l = some u ∧ u ∈ l ∧
      ∀ v ∈ l, v.weekDate ≤ u.weekDate := by
  cases l with
  | nil => exact absurd rfl hne
  | cons a l =>
      obtain ⟨u, h1, h2, _, h4⟩ := pickLater_go l a
      refine ⟨u, ?_, ?_, ?_⟩
      · simpa [firstMaxByWeekDate, pickLater] using h1
      · rcases h2 with h2 | h2
        · exact h2 ▸ List.mem_cons_self a l
        · exact List.mem_cons_of_mem a h2
      · intro v hv
        rcases List.mem_cons.mp hv with hv | hv
        · obtain ⟨_, _, h3, _⟩ := pickLater_go l a
          exact hv ▸ le_trans (le_refl _) (by
            obtain ⟨u2, g1, _, g3, _⟩ := pickLater_go l a
            rw [show u2 = u from Option.some_injective _ (g1 ▸ h1 ▸ rfl)] at g3
            exact g3)
        · exact h4 v hv

/-- Project with one update dated Wednesday 2024-01-10 (day 19732),
progress 42. -/
def c3upd : WeeklyUpdate :=
  { defWeeklyUpdate with id := ['w'], weekDate := 19732, progress := 42 }

/-- One-project store for the exact-date counterexample. -/
def c3proj : Project := { defProject with id := ['q'], weeklyUpdates := [c3upd] }

/-- C3 (counterexample): the view does not compare against the queried
date itself but against the Monday of its week: a project whose only
update is dated exactly on the queried Wednesday 2024-01-10 (day 19732)
is reported as 0, not as that update's progress 42, because the lookup
uses Monday 2024-01-08 (day 19730) and the update is after it. -/
theorem progressForDate_ignores_exact_nonMonday :
    c3upd.weekDate = 19732 ∧ c3upd.progress = 42 ∧
    c3proj.weeklyUpdates = [c3upd] ∧
    getWeekMonday 19732 = 19730 ∧
    progressForDate c3proj 19732 = 0 ∧
    progressChartData [c3proj] 19732 = [0] ∧
    (0 : Int) ≠ 42 := by decide

/-- C3 (amended): for every project and queried date d, with
m = getWeekMonday d the Monday of d's week, the reported progress is
the progress of an update with weekDate <= m that is most recent among
those (an exact match at m is such a maximum), and 0 — never the
currentProgress cache — when no update has weekDate <= m. -/
theorem progressForDate_closest_prior (p : Project) (d : Int) :
    (∃ u ∈ p.weeklyUpdates,
      u.weekDate ≤ getWeekMonday d ∧
      progressForDate p d = u.progress ∧
      ∀ v ∈ p.weeklyUpdates,
        v.weekDate ≤ getWeekMonday d → v.weekDate ≤ u.weekDate) ∨
    ((∀ u ∈ p.weeklyUpdates, getWeekMonday d < u.weekDate) ∧
      progressForDate p d = 0) := by
  cases hf : p.weeklyUpdates.find? fun u => decide (u.weekDate = getWeekMonday d) with
  | some u =>
      left
      have hps := List.find?_some hf
      have heq : u.weekDate = getWeekMonday d := of_decide_eq_true hps
      refine ⟨u, List.mem_of_find?_eq_some hf, le_of_eq heq, ?_,
        fun v _ hvm => heq ▸ hvm⟩
      simp [progressForDate, closestUpdate, hf]
  | none =>
      by_cases hFe :
          (p.weeklyUpdates.filter fun u => decide (u.weekDate ≤ getWeekMonday d)) = []
      · right
        constructor
        · intro u hu
          by_contra hlt
          push_neg at hlt
          have : u ∈ p.weeklyUpdates.filter
              fun u => decide (u.weekDate ≤ getWeekMonday d) :=
            List.mem_filter.mpr ⟨hu, by simpa using hlt⟩
          simp [hFe] at this
        · simp [progressForDate, closestUpdate, hf, hFe, firstMaxByWeekDate]
      · left
        obtain ⟨u, h1, h2, h3⟩ := firstMaxByWeekDate_spec _ hFe
        have hmemu := (List.mem_filter.mp h2).1
        have hum : u.weekDate ≤ getWeekMonday d :=
          of_decide_eq_true (List.mem_filter.mp h2).2
        refine ⟨u, hmemu, hum, ?_, ?_⟩
        · simp [progressForDate, closestUpdate, hf, h1]
        · intro v hv hvm
          exact h3 v (List.mem_filter.mpr ⟨hv, by simpa using hvm⟩)

/-- C3 (witness): scenario C — updates at 2024-01-01 (progress 10) and
2024-01-15 (progress 30), queried at 2024-01-10 (day 19732): the view
reports 10, and the theorem instantiates there. -/
theorem progressForDate_closest_prior_witness :
    progressForDate scenarioCProj 19732 = 10 ∧
    ((∃ u ∈ scenarioCProj.weeklyUpdates,
      u.weekDate ≤ getWeekMonday 19732 ∧
      progressForDate scenarioCProj 19732 = u.progress ∧
      ∀ v ∈ scenarioCProj.weeklyUpdates,
        v.weekDate ≤ getWeekMonday 19732 → v.weekDate ≤ u.weekDate) ∨
    ((∀ u ∈ scenarioCProj.weeklyUpdates, getWeekMonday 19732 < u.weekDate) ∧
      progressForDate scenarioCProj 19732 = 0)) :=
  ⟨by decide, progressForDate_closest_prior scenarioCProj 19732⟩

/-- Project with a single update one week before Monday 2024-01-01:
weekDate 19716 = 19723 - 7, progress 55. -/
def c6upd : WeeklyUpdate :=
  { defWeeklyUpdate with id := ['t'], weekDate := 19716, progress := 55 }

/-- One-project store for the trend scenario. -/
def c6proj : Project := { defProject with id := ['r'], weeklyUpdates := [c6upd] }

/-- C6 (counterexample): a 4-week trend window ending at week W
(Monday 2024-01-01, day 19723) over a project with a single update at
week W-1 emits the series [null, null, value, null] — the value sits in
the third bucket (W-1), not the second as the claim's example says. -/
theorem progressTrendData_scenario_position :
    getWeekMonday 19723 = 19723 ∧
    c6upd.weekDate = 19723 - 7 ∧
    progressTrendData [c6proj] 19723 TrendRange.month =
      [[none], [none], [some 55], [none]] ∧
    ([[none], [none], [some 55], [none]] : List (List (Option Int))) ≠
      [[none], [some 55], [none], [none]] := by decide

/-- C6 (amended): the trend view emits rangeWeeks r buckets, the j-th
(oldest first) being the week of Monday getWeekMonday d - 7*(n-1-j)
— so consecutive buckets are seven days apart in chronological order —
with one value per charted project (the first 8): that value is null
exactly when the project has no update with
bucketStart <= weekDate <= bucketStart + 6, and otherwise is the
progress of such an update. -/
theorem progressTrendData_spec (ps : List Project) (d : Int) (r : TrendRange) :
    (progressTrendData ps d r).length = rangeWeeks r ∧
    (∀ j, j < rangeWeeks r →
      (progressTrendData ps d r).getD j [] =
        (ps.take 8).map fun p =>
          bucketValue p
            (getWeekMonday d - 7 * ((rangeWeeks r - 1 - j : Nat) : Int))) ∧
    (∀ p m, bucketValue p m = none →
      ∀ u ∈ p.weeklyUpdates, ¬(m ≤ u.weekDate ∧ u.weekDate ≤ m + 6)) ∧
    (∀ p m x, bucketValue p m = some x →
      ∃ u ∈ p.weeklyUpdates, (m ≤ u.weekDate ∧ u.weekDate ≤ m + 6) ∧
        u.progress = x) := by
  refine ⟨?_, ?_, ?_, ?_⟩
  · simp [progressTrendData]
  · intro j hj
    rw [progressTrendData]
    rw [List.getD_eq_getElem _ _ (by simpa using hj), List.getElem_map,
      List.getElem_range]
  · intro p m hnone u hu hin
    rw [bucketValue, Option.map_eq_none'] at hnone
    have := List.find?_eq_none.mp hnone u hu
    simp [isDateInWeek] at this
    exact absurd hin.2 (not_le.mpr (this hin.1))
  · intro p m x hsome
    rw [bucketValue] at hsome
    obtain ⟨u, hu, hux⟩ := Option.map_eq_some'.mp hsome
    have hpred := List.find?_some hu
    refine ⟨u, List.mem_of_find?_eq_some hu, ?_, hux⟩
    simpa [isDateInWeek] using hpred

/-- C6 (witness): the amended theorem instantiated at the scenario
store and bucket index 2 (the W-1 bucket), together with the concrete
emitted series. -/
theorem progressTrendData_spec_witness :
    progressTrendData [c6proj] 19723 TrendRange.month =
      [[none], [none], [some 55], [none]] ∧
    (progressTrendData [c6proj] 19723 TrendRange.month).getD 2 [] =
      (([c6proj] : List Project).take 8).map (fun p =>
        bucketValue p
          (getWeekMonday 19723 -
            7 * ((rangeWeeks TrendRange.month - 1 - 2 : Nat) : Int))) :=
  ⟨by decide,
    (progressTrendData_spec [c6proj] 19723 TrendRange.month).2.1 2 (by decide)⟩

end PPP
